import Mathlib

/-!
Verification of the pasta-synth extrusion library: a shallow embedding of
`xforms.py`, `path.py`, `cross_section.py`, `extruded_surface.py` and
`util.py` over the real numbers, together with theorems about the claims
of the specification.

Floating-point numbers are modelled as real numbers; `mathutils.Vector`
and `mathutils.Matrix` are modelled by the `Vec3` and `Mat3` structures
below, with the library semantics of `normalize` (a zero vector is left
unchanged) and `invert(fallback)` (a matrix with zero determinant is
replaced by the fallback).
-/

noncomputable section

open Real

/-- Three-component vector, modelling `mathutils.Vector` with fields x, y, z. -/
structure Vec3 where
  x : ℝ
  y : ℝ
  z : ℝ

namespace Vec3

@[ext] theorem extV {a b : Vec3} (hx : a.x = b.x) (hy : a.y = b.y) (hz : a.z = b.z) :
    a = b := by
  cases a; cases b; simp_all

/-- Componentwise addition. -/
def add (a b : Vec3) : Vec3 := ⟨a.x + b.x, a.y + b.y, a.z + b.z⟩

/-- Componentwise negation. -/
def neg (a : Vec3) : Vec3 := ⟨-a.x, -a.y, -a.z⟩

/-- Componentwise subtraction. -/
def sub (a b : Vec3) : Vec3 := ⟨a.x - b.x, a.y - b.y, a.z - b.z⟩

/-- Scalar multiplication, `c * v`. -/
def smul (c : ℝ) (a : Vec3) : Vec3 := ⟨c * a.x, c * a.y, c * a.z⟩

instance : Add Vec3 := ⟨add⟩
instance : Neg Vec3 := ⟨neg⟩
instance : Sub Vec3 := ⟨sub⟩

@[simp] theorem add_def (a b : Vec3) : a + b = ⟨a.x + b.x, a.y + b.y, a.z + b.z⟩ := rfl
@[simp] theorem neg_def (a : Vec3) : -a = ⟨-a.x, -a.y, -a.z⟩ := rfl
@[simp] theorem sub_def (a b : Vec3) : a - b = ⟨a.x - b.x, a.y - b.y, a.z - b.z⟩ := rfl
@[simp] theorem smul_def (c : ℝ) (a : Vec3) : smul c a = ⟨c * a.x, c * a.y, c * a.z⟩ := rfl

/-- Dot product. -/
def dot (a b : Vec3) : ℝ := a.x * b.x + a.y * b.y + a.z * b.z

/-- Cross product, as `mathutils.Vector.cross`. -/
def cross (a b : Vec3) : Vec3 :=
  ⟨a.y * b.z - a.z * b.y, a.z * b.x - a.x * b.z, a.x * b.y - a.y * b.x⟩

/-- Squared Euclidean length. -/
def lenSq (a : Vec3) : ℝ := a.x ^ 2 + a.y ^ 2 + a.z ^ 2

/-- Euclidean length of a vector. -/
def len (a : Vec3) : ℝ := Real.sqrt a.lenSq

/-- Normalization as done by `mathutils.Vector.normalize`: a vector of zero
length is left unchanged, otherwise the vector is divided by its length. -/
def normalize (a : Vec3) : Vec3 :=
  if a.len = 0 then a else smul (1 / a.len) a

theorem lenSq_nonneg (a : Vec3) : 0 ≤ a.lenSq := by
  unfold lenSq; positivity

theorem len_nonneg (a : Vec3) : 0 ≤ a.len := Real.sqrt_nonneg _

theorem lenSq_eq_zero_iff (a : Vec3) : a.lenSq = 0 ↔ a = ⟨0, 0, 0⟩ := by
  unfold lenSq
  constructor
  · intro h
    have hx : a.x = 0 := by nlinarith [sq_nonneg a.x, sq_nonneg a.y, sq_nonneg a.z]
    have hy : a.y = 0 := by nlinarith [sq_nonneg a.x, sq_nonneg a.y, sq_nonneg a.z]
    have hz : a.z = 0 := by nlinarith [sq_nonneg a.x, sq_nonneg a.y, sq_nonneg a.z]
    exact extV hx hy hz
  · intro h; subst h; norm_num

theorem len_eq_zero_iff (a : Vec3) : a.len = 0 ↔ a = ⟨0, 0, 0⟩ := by
  rw [len, Real.sqrt_eq_zero (lenSq_nonneg a)]
  exact lenSq_eq_zero_iff a

theorem len_smul (c : ℝ) (a : Vec3) : (smul c a).len = |c| * a.len := by
  unfold len lenSq smul
  simp only
  rw [show (c * a.x) ^ 2 + (c * a.y) ^ 2 + (c * a.z) ^ 2
      = c ^ 2 * (a.x ^ 2 + a.y ^ 2 + a.z ^ 2) by ring]
  rw [Real.sqrt_mul (sq_nonneg c), Real.sqrt_sq_eq_abs]

/-- Normalizing a nonzero vector yields a unit vector. -/
theorem len_normalize {a : Vec3} (h : a ≠ ⟨0, 0, 0⟩) : a.normalize.len = 1 := by
  have hlen : a.len ≠ 0 := fun h0 => h ((len_eq_zero_iff a).mp h0)
  have hpos : 0 < a.len := lt_of_le_of_ne (len_nonneg a) (Ne.symm hlen)
  unfold normalize
  rw [if_neg hlen, len_smul]
  rw [abs_of_nonneg (le_of_lt (by positivity : (0:ℝ) < 1 / a.len))]
  field_simp

/-- Lagrange identity for the cross product in three dimensions. -/
theorem lenSq_cross (a b : Vec3) :
    (cross a b).lenSq = a.lenSq * b.lenSq - (dot a b) ^ 2 := by
  unfold lenSq cross dot
  simp only
  ring

end Vec3

/-- Three-by-three matrix, modelling `mathutils.Matrix` built from rows. -/
structure Mat3 where
  m00 : ℝ
  m01 : ℝ
  m02 : ℝ
  m10 : ℝ
  m11 : ℝ
  m12 : ℝ
  m20 : ℝ
  m21 : ℝ
  m22 : ℝ

namespace Mat3

@[ext] theorem extM {A B : Mat3}
    (h00 : A.m00 = B.m00) (h01 : A.m01 = B.m01) (h02 : A.m02 = B.m02)
    (h10 : A.m10 = B.m10) (h11 : A.m11 = B.m11) (h12 : A.m12 = B.m12)
    (h20 : A.m20 = B.m20) (h21 : A.m21 = B.m21) (h22 : A.m22 = B.m22) :
    A = B := by
  cases A; cases B; simp_all

/-- The identity matrix. -/
def id : Mat3 := ⟨1, 0, 0, 0, 1, 0, 0, 0, 1⟩

/-- Matrix product, row times column. -/
def mul (A B : Mat3) : Mat3 :=
  ⟨A.m00 * B.m00 + A.m01 * B.m10 + A.m02 * B.m20,
   A.m00 * B.m01 + A.m01 * B.m11 + A.m02 * B.m21,
   A.m00 * B.m02 + A.m01 * B.m12 + A.m02 * B.m22,
   A.m10 * B.m00 + A.m11 * B.m10 + A.m12 * B.m20,
   A.m10 * B.m01 + A.m11 * B.m11 + A.m12 * B.m21,
   A.m10 * B.m02 + A.m11 * B.m12 + A.m12 * B.m22,
   A.m20 * B.m00 + A.m21 * B.m10 + A.m22 * B.m20,
   A.m20 * B.m01 + A.m21 * B.m11 + A.m22 * B.m21,
   A.m20 * B.m02 + A.m21 * B.m12 + A.m22 * B.m22⟩

/-- Matrix-vector product. -/
def mulVec (A : Mat3) (v : Vec3) : Vec3 :=
  ⟨A.m00 * v.x + A.m01 * v.y + A.m02 * v.z,
   A.m10 * v.x + A.m11 * v.y + A.m12 * v.z,
   A.m20 * v.x + A.m21 * v.y + A.m22 * v.z⟩

/-- Transpose. -/
def transpose (A : Mat3) : Mat3 :=
  ⟨A.m00, A.m10, A.m20, A.m01, A.m11, A.m21, A.m02, A.m12, A.m22⟩

/-- Determinant, cofactor expansion along the first row. -/
def det (A : Mat3) : ℝ :=
  A.m00 * (A.m11 * A.m22 - A.m12 * A.m21)
  - A.m01 * (A.m10 * A.m22 - A.m12 * A.m20)
  + A.m02 * (A.m10 * A.m21 - A.m11 * A.m20)

/-- Matrix inverse via the adjugate, meaningful when the determinant is
nonzero. -/
def inv (A : Mat3) : Mat3 :=
  ⟨(A.m11 * A.m22 - A.m12 * A.m21) / A.det,
   (A.m02 * A.m21 - A.m01 * A.m22) / A.det,
   (A.m01 * A.m12 - A.m02 * A.m11) / A.det,
   (A.m12 * A.m20 - A.m10 * A.m22) / A.det,
   (A.m00 * A.m22 - A.m02 * A.m20) / A.det,
   (A.m02 * A.m10 - A.m00 * A.m12) / A.det,
   (A.m10 * A.m21 - A.m11 * A.m20) / A.det,
   (A.m01 * A.m20 - A.m00 * A.m21) / A.det,
   (A.m00 * A.m11 - A.m01 * A.m10) / A.det⟩

/-- Inversion as done by `mathutils.Matrix.invert(fallback)`: when the matrix
is singular (zero determinant), the fallback matrix is used instead. -/
def invertOr (A fallback : Mat3) : Mat3 :=
  if A.det = 0 then fallback else A.inv

/-- A matrix with nonzero determinant multiplied by its adjugate inverse
gives the identity. -/
theorem mul_inv_eq_id {A : Mat3} (h : A.det ≠ 0) : A.mul A.inv = Mat3.id := by
  have hd := h
  unfold det at hd
  unfold mul inv det Mat3.id
  ext <;> (simp only; field_simp; ring)

theorem invertOr_of_det_ne_zero {A F : Mat3} (h : A.det ≠ 0) : A.invertOr F = A.inv := by
  unfold invertOr; rw [if_neg h]

theorem invertOr_of_det_eq_zero {A F : Mat3} (h : A.det = 0) : A.invertOr F = F := by
  unfold invertOr; rw [if_pos h]

@[simp] theorem transpose_id : Mat3.id.transpose = Mat3.id := rfl

@[simp] theorem id_mulVec (v : Vec3) : Mat3.id.mulVec v = v := by
  unfold mulVec Mat3.id; ext <;> simp

end Mat3

/-- Two-argument arctangent with the semantics of `math.atan2(y, x)`: the
angle of the point (x, y) in the range (-pi, pi], with atan2(0, 0) = 0.
This is exactly the argument of the complex number x + y i. -/
def atan2 (y x : ℝ) : ℝ := Complex.arg ⟨x, y⟩

/-- Linear interpolation from `util.lerp`: `params` is a pair
(initial, final) and the result is `initial * (1 - t) + final * t`. -/
def lerp (params : ℝ × ℝ) (t : ℝ) : ℝ := params.1 * (1 - t) + params.2 * t

/-- Transformations from `xforms.py`. Every concrete `XForm` subclass is a
constructor. The `conjugated` constructor carries the stored `B_inv` field
of the Python object (`self.B_inv = conjugate_by.inverse`); construction
through `Conjugated.init` below enforces the `__init__` check. -/
inductive XForm : Type
  | scale (sx sy sz : ℝ)
  | translate (offset : Vec3)
  | rotateZ (angle : ℝ)
  | superScale (n m p : ℝ)
  | cartesianToCylindrical
  | cylindricalToCartesian
  | sinusoidal
  | conjugated (A B B_inv : XForm)

namespace SuperScale

/-- Sign function `SuperScale.sgn`. -/
def sgn (x : ℝ) : ℝ :=
  if x > 0 then 1 else if x < 0 then -1 else 0

/-- The odd power function `SuperScale.superfunc`:
`superfunc(x, n) = sgn(x) * |x| ^ (2 / n)`. -/
def superfunc (x n : ℝ) : ℝ := sgn x * |x| ^ (2 / n)

/-- Derivative helper `SuperScale.superfunc_deriv`: at x = 0 the true
derivative is not well defined and the code returns the sentinel 1;
otherwise it returns `(2 / n) * |x| ^ (2 / n - 1)`. -/
def superfunc_deriv (x n : ℝ) : ℝ :=
  if x = 0 then 1 else (2 / n) * |x| ^ (2 / n - 1)

end SuperScale

namespace XForm

/-- The `transform` method of each `XForm` subclass. -/
def transform : XForm → Vec3 → Vec3
  | scale sx sy sz, point => ⟨point.x * sx, point.y * sy, point.z * sz⟩
  | translate offset, point => point + offset
  | rotateZ angle, point =>
      ⟨point.x * Real.cos angle - point.y * Real.sin angle,
       point.x * Real.sin angle + point.y * Real.cos angle,
       point.z⟩
  | superScale n m p, point =>
      ⟨SuperScale.superfunc point.x n,
       SuperScale.superfunc point.y m,
       SuperScale.superfunc point.z p⟩
  | cartesianToCylindrical, point =>
      ⟨Real.sqrt (point.y ^ 2 + point.x ^ 2), atan2 point.y point.x, point.z⟩
  | cylindricalToCartesian, point =>
      ⟨point.x * Real.cos point.y, point.x * Real.sin point.y, point.z⟩
  | sinusoidal, point =>
      ⟨Real.sin point.x, Real.sin point.y, Real.sin point.z⟩
  | conjugated A B B_inv, point =>
      B.transform (A.transform (B_inv.transform point))

/-- The `jacobian` method of each `XForm` subclass. Note that in
`Conjugated.jacobian` the source evaluates all three factor Jacobians at
the same input point. -/
def jacobian : XForm → Vec3 → Mat3
  | scale sx sy sz, _ => ⟨sx, 0, 0, 0, sy, 0, 0, 0, sz⟩
  | translate _, _ => ⟨1, 0, 0, 0, 1, 0, 0, 0, 1⟩
  | rotateZ angle, _ =>
      ⟨Real.cos angle, -Real.sin angle, 0,
       Real.sin angle, Real.cos angle, 0,
       0, 0, 1⟩
  | superScale n m p, point =>
      ⟨SuperScale.superfunc_deriv point.x n, 0, 0,
       0, SuperScale.superfunc_deriv point.y m, 0,
       0, 0, SuperScale.superfunc_deriv point.z p⟩
  | cartesianToCylindrical, point =>
      ⟨point.x / Real.sqrt (point.y ^ 2 + point.x ^ 2),
       point.y / Real.sqrt (point.y ^ 2 + point.x ^ 2), 0,
       -point.y / (point.x * point.x + point.y * point.y),
       point.x / (point.x * point.x + point.y * point.y), 0,
       0, 0, 1⟩
  | cylindricalToCartesian, point =>
      ⟨Real.cos point.y, -point.x * Real.sin point.y, 0,
       Real.sin point.y, point.x * Real.cos point.y, 0,
       0, 0, 1⟩
  | sinusoidal, point =>
      ⟨Real.cos point.x, 0, 0,
       0, Real.cos point.y, 0,
       0, 0, Real.cos point.z⟩
  | conjugated A B B_inv, point =>
      (B.jacobian point).mul ((A.jacobian point).mul (B_inv.jacobian point))

/-- The `inverse` property: the base class returns None; `Scale`,
`Translate`, `RotateZ` and the two cylindrical conversions override it. -/
def inverse : XForm → Option XForm
  | scale sx sy sz => some (scale (1 / sx) (1 / sy) (1 / sz))
  | translate offset => some (translate (-offset))
  | rotateZ angle => some (rotateZ (-angle))
  | cartesianToCylindrical => some cylindricalToCartesian
  | cylindricalToCartesian => some cartesianToCylindrical
  | _ => none

end XForm

namespace Conjugated

/-- Model of `Conjugated.__init__(original, conjugate_by)`: it stores
`conjugate_by.inverse` and raises ValueError when that inverse is None,
so construction fails (returns none) exactly when `conjugate_by` has no
inverse, before `transform` or `jacobian` can ever be called. -/
def init (original conjugate_by : XForm) : Option XForm :=
  match conjugate_by.inverse with
  | some bInv => some (XForm.conjugated original conjugate_by bInv)
  | none => none

end Conjugated

/-- Parametric extrusion path from `path.py`: the base class requires
`position`, `tangent` and `normal`; `binormal` and `frenet_frame` are
derived from them. Concrete subclasses are values of this structure. -/
structure ExtrusionPath where
  position : ℝ → Vec3
  tangent : ℝ → Vec3
  normal : ℝ → Vec3

namespace ExtrusionPath

/-- Derived binormal, `B = T cross N`. -/
def binormal (P : ExtrusionPath) (v : ℝ) : Vec3 := Vec3.cross (P.tangent v) (P.normal v)

/-- The Frenet frame tuple (T, N, B). -/
def frenet_frame (P : ExtrusionPath) (v : ℝ) : Vec3 × Vec3 × Vec3 :=
  (P.tangent v, P.normal v, P.binormal v)

end ExtrusionPath

namespace LinePath

/-- The `Line` path: linear interpolation between start and end. -/
def position (start end_ : Vec3) (v : ℝ) : Vec3 :=
  Vec3.smul (1 - v) start + Vec3.smul v end_

/-- The `Line` tangent: the normalized direction from start to end. -/
def tangent (start end_ : Vec3) (_v : ℝ) : Vec3 :=
  Vec3.normalize (end_ - start)

/-- The `Line` normal: the normalized cross product of the up direction
with the tangent (the curvature is zero, so a perpendicular direction is
chosen by convention). -/
def normal (start end_ : Vec3) (v : ℝ) : Vec3 :=
  Vec3.normalize (Vec3.cross ⟨0, 0, 1⟩ (tangent start end_ v))

/-- The `Line` subclass as a `Path` record. -/
def path (start end_ : Vec3) : ExtrusionPath :=
  { position := position start end_
    tangent := tangent start end_
    normal := normal start end_ }

end LinePath

namespace Helix

/-- `Helix.position`: x = cos(phi(v)), y = sin(phi(v)), z = z(v), with
phi and z linear interpolations of the angle and height pairs. -/
def position (heights angles : ℝ × ℝ) (v : ℝ) : Vec3 :=
  ⟨Real.cos (lerp angles v), Real.sin (lerp angles v), lerp heights v⟩

/-- `Helix.tangent`: the normalized derivative of the position. -/
def tangent (heights angles : ℝ × ℝ) (v : ℝ) : Vec3 :=
  Vec3.normalize
    ⟨-Real.sin ((1 - v) * angles.1 + v * angles.2) * (angles.2 - angles.1),
     Real.cos ((1 - v) * angles.1 + v * angles.2) * (angles.2 - angles.1),
     heights.2 - heights.1⟩

/-- `Helix.normal`: the normalized second derivative of the position. -/
def normal (_heights angles : ℝ × ℝ) (v : ℝ) : Vec3 :=
  Vec3.normalize
    ⟨-(angles.2 - angles.1) * (angles.2 - angles.1)
        * Real.cos ((1 - v) * angles.1 + v * angles.2),
     -(angles.2 - angles.1) * (angles.2 - angles.1)
        * Real.sin ((1 - v) * angles.1 + v * angles.2),
     0⟩

/-- The `Helix` subclass as a `Path` record. -/
def path (heights angles : ℝ × ℝ) : ExtrusionPath :=
  { position := position heights angles
    tangent := tangent heights angles
    normal := normal heights angles }

end Helix

namespace TransformedPath

/-- `Transformed.position` from `path.py`: transform the base position. -/
def position (base : ExtrusionPath) (X : XForm) (v : ℝ) : Vec3 :=
  X.transform (base.position v)

/-- `Transformed.tangent`: multiply by the Jacobian at the base position,
then normalize. -/
def tangent (base : ExtrusionPath) (X : XForm) (v : ℝ) : Vec3 :=
  Vec3.normalize ((X.jacobian (base.position v)).mulVec (base.tangent v))

/-- `Transformed.normal`: multiply by the inverse transpose of the Jacobian
at the base position (falling back to the identity matrix when the Jacobian
is singular), then normalize. -/
def normal (base : ExtrusionPath) (X : XForm) (v : ℝ) : Vec3 :=
  Vec3.normalize
    ((((X.jacobian (base.position v)).invertOr Mat3.id).transpose).mulVec
      (base.normal v))

/-- The `Transformed` path subclass (with a constant XForm) as a `Path`
record. -/
def path (base : ExtrusionPath) (X : XForm) : ExtrusionPath :=
  { position := position base X
    tangent := tangent base X
    normal := normal base X }

end TransformedPath

/-- Cross-section curve from `cross_section.py`: the base class requires
`position(u, v)`. Concrete subclasses are values of this structure. -/
structure CrossSection where
  position : ℝ → ℝ → Vec3

namespace Circle

/-- The `Circle` cross-section: a unit circle traversed once as u goes
from 0 to 1. -/
def cs : CrossSection :=
  ⟨fun u _v => ⟨Real.cos (2 * Real.pi * u), Real.sin (2 * Real.pi * u), 0⟩⟩

end Circle

/-- Python list indexing `l[i]` for an integer i: nonnegative indices are
counted from the front, negative indices from the back, and anything out
of range is an IndexError (modelled as none). -/
def pyIndex {α : Type} (l : List α) (i : ℤ) : Option α :=
  if 0 ≤ i then l.get? i.toNat
  else if 0 ≤ i + l.length then l.get? (i + l.length).toNat
  else none

namespace Union

/-- `Union.position`: split u * N with divmod into an integer section index
and a fractional part, delegate to the indexed section; on IndexError fall
back to the last section at u = 1. The result is none only when even the
fallback `cross_sections[-1]` raises, that is, when the list is empty. -/
def position (cross_sections : List CrossSection) (u v : ℝ) : Option Vec3 :=
  match pyIndex cross_sections ⌊u * cross_sections.length⌋ with
  | some cs => some (cs.position (Int.fract (u * cross_sections.length)) v)
  | none =>
      match pyIndex cross_sections (-1) with
      | some cs => some (cs.position 1 v)
      | none => none

end Union

namespace ExtrudedSurface

/-- `ExtrudedSurface.position`: place the cross-section point in the Frenet
frame of the path and add the path position. -/
def position (cross_section : CrossSection) (path : ExtrusionPath) (u v : ℝ) : Vec3 :=
  let path_pos := path.position v
  let T := (path.frenet_frame v).1
  let N := (path.frenet_frame v).2.1
  let B := (path.frenet_frame v).2.2
  let cs_position := cross_section.position u v
  Vec3.smul cs_position.x N + Vec3.smul cs_position.y B + Vec3.smul cs_position.z T
    + path_pos

end ExtrudedSurface

theorem superfunc_two (x : ℝ) : SuperScale.superfunc x 2 = x := by
  unfold SuperScale.superfunc SuperScale.sgn
  rw [show (2 : ℝ) / 2 = 1 by norm_num, Real.rpow_one]
  split_ifs with h1 h2
  · rw [abs_of_pos h1]; ring
  · rw [abs_of_neg h2]; ring
  · have hx : x = 0 := le_antisymm (not_lt.mp h1) (not_lt.mp h2)
    subst hx; simp

theorem superfunc_deriv_two (x : ℝ) : SuperScale.superfunc_deriv x 2 = 1 := by
  unfold SuperScale.superfunc_deriv
  split
  · norm_num
  · rw [show (2 : ℝ) / 2 - 1 = 0 by norm_num, Real.rpow_zero]; norm_num

/-- Claim C9: for every Helix, position(v) = (cos phi(v), sin phi(v), z(v))
where phi and z are linear interpolations of the angle and height pairs;
in particular Helix((0,1),(0,2*pi)) starts at (1,0,0) and ends at (1,0,1). -/
theorem C9_helix_position :
    (∀ (heights angles : ℝ × ℝ) (v : ℝ),
      (Helix.path heights angles).position v =
        ⟨Real.cos (lerp angles v), Real.sin (lerp angles v), lerp heights v⟩) ∧
    (Helix.path (0, 1) (0, 2 * Real.pi)).position 0 = ⟨1, 0, 0⟩ ∧
    (Helix.path (0, 1) (0, 2 * Real.pi)).position 1 = ⟨1, 0, 1⟩ := by
  refine ⟨fun heights angles v => rfl, ?_, ?_⟩
  · show Helix.position _ _ _ = _
    unfold Helix.position lerp
    norm_num
  · show Helix.position _ _ _ = _
    unfold Helix.position lerp
    norm_num [Real.cos_two_pi, Real.sin_two_pi]

/-- Claim C10: SuperScale(2, 2, 2) is the identity transformation, and its
Jacobian is the identity matrix at every point (the x = 0 sentinel value 1
agrees with the limit of the nonzero-branch formula). -/
theorem C10_superScale_two_identity :
    (∀ p : Vec3, (XForm.superScale 2 2 2).transform p = p) ∧
    (∀ q : Vec3, (XForm.superScale 2 2 2).jacobian q = Mat3.id) := by
  constructor
  · intro p
    show (⟨SuperScale.superfunc p.x 2, SuperScale.superfunc p.y 2,
           SuperScale.superfunc p.z 2⟩ : Vec3) = p
    rw [superfunc_two, superfunc_two, superfunc_two]
  · intro q
    show (⟨SuperScale.superfunc_deriv q.x 2, 0, 0,
           0, SuperScale.superfunc_deriv q.y 2, 0,
           0, 0, SuperScale.superfunc_deriv q.z 2⟩ : Mat3) = Mat3.id
    rw [superfunc_deriv_two, superfunc_deriv_two, superfunc_deriv_two]
    rfl

/-- The diagonal derivative entry prescribed by the specification for
SuperScale away from zero: f'(x, k) = (2/k) * |x| ^ (2/k - 1). -/
def specSuperDeriv (x k : ℝ) : ℝ := (2 / k) * |x| ^ (2 / k - 1)

/-- Claim C4: the SuperScale Jacobian is diagonal with entries
(2/k) * |x| ^ (2/k - 1) per component, except that a component exactly at
zero contributes the documented sentinel entry 1. -/
theorem C4_superScale_jacobian (n m p : ℝ) (q : Vec3) :
    (XForm.superScale n m p).jacobian q =
      ⟨(if q.x = 0 then 1 else specSuperDeriv q.x n), 0, 0,
       0, (if q.y = 0 then 1 else specSuperDeriv q.y m), 0,
       0, 0, (if q.z = 0 then 1 else specSuperDeriv q.z p)⟩ := by
  show (⟨SuperScale.superfunc_deriv q.x n, 0, 0,
         0, SuperScale.superfunc_deriv q.y m, 0,
         0, 0, SuperScale.superfunc_deriv q.z p⟩ : Mat3) = _
  unfold SuperScale.superfunc_deriv specSuperDeriv
  norm_num

/-- Claim C7: constructing Conjugated(A, B) fails (at construction time)
exactly when B has no inverse; when B has an inverse the construction
succeeds and stores it. A Sinusoidal instance and any SuperScale instance
use the default inverse, which is None. -/
theorem C7_conjugated_construction :
    (∀ A B : XForm, Conjugated.init A B = none ↔ B.inverse = none) ∧
    (∀ A B Bi : XForm, B.inverse = some Bi →
      Conjugated.init A B = some (XForm.conjugated A B Bi)) ∧
    XForm.inverse XForm.sinusoidal = none ∧
    (∀ n m p : ℝ, XForm.inverse (XForm.superScale n m p) = none) := by
  refine ⟨fun A B => ?_, fun A B Bi h => ?_, rfl, fun n m p => rfl⟩
  · unfold Conjugated.init
    cases h : B.inverse <;> simp [h]
  · unfold Conjugated.init
    rw [h]

/-- Witness for C7 at a concrete invertible conjugating transform. -/
theorem C7_witness :
    Conjugated.init XForm.sinusoidal XForm.cylindricalToCartesian =
      some (XForm.conjugated XForm.sinusoidal XForm.cylindricalToCartesian
        XForm.cartesianToCylindrical) :=
  C7_conjugated_construction.2.1 XForm.sinusoidal XForm.cylindricalToCartesian
    XForm.cartesianToCylindrical rfl

/-- Claim C2: the extruded surface position is the path position plus the
cross-section coordinates expressed in the Frenet frame: N·lx + B·ly + T·lz
with B = T cross N. -/
theorem C2_extruded_position (cs : CrossSection) (P : ExtrusionPath) (u v : ℝ)
    (_hu : u ∈ Set.Icc (0 : ℝ) 1) (_hv : v ∈ Set.Icc (0 : ℝ) 1) :
    ExtrudedSurface.position cs P u v =
      P.position v
        + Vec3.smul (cs.position u v).x (P.normal v)
        + Vec3.smul (cs.position u v).y (Vec3.cross (P.tangent v) (P.normal v))
        + Vec3.smul (cs.position u v).z (P.tangent v) := by
  unfold ExtrudedSurface.position ExtrusionPath.frenet_frame ExtrusionPath.binormal
  ext <;> (simp [Vec3.cross]; ring)

/-- Witness for C2 at a circle cross-section extruded along a line. -/
theorem C2_witness :
    (0 : ℝ) ∈ Set.Icc (0 : ℝ) 1 ∧
    ExtrudedSurface.position Circle.cs (LinePath.path ⟨0, 0, 0⟩ ⟨1, 0, 0⟩) 0 0 =
      (LinePath.path ⟨0, 0, 0⟩ ⟨1, 0, 0⟩).position 0
        + Vec3.smul ((Circle.cs.position 0 0).x)
            ((LinePath.path ⟨0, 0, 0⟩ ⟨1, 0, 0⟩).normal 0)
        + Vec3.smul ((Circle.cs.position 0 0).y)
            (Vec3.cross ((LinePath.path ⟨0, 0, 0⟩ ⟨1, 0, 0⟩).tangent 0)
              ((LinePath.path ⟨0, 0, 0⟩ ⟨1, 0, 0⟩).normal 0))
        + Vec3.smul ((Circle.cs.position 0 0).z)
            ((LinePath.path ⟨0, 0, 0⟩ ⟨1, 0, 0⟩).tangent 0) :=
  ⟨by norm_num, C2_extruded_position Circle.cs (LinePath.path ⟨0, 0, 0⟩ ⟨1, 0, 0⟩) 0 0
    (by norm_num) (by norm_num)⟩

/-- Claim C3: for u in [0,1) the Union delegates to section floor(u*N) at
the fractional part of u*N; at u = 1 the out-of-range index is absorbed by
the fallback to the last section at its own endpoint; and the concrete
example Union([Circle, Circle]).position(0.25, v) = Circle.position(0.5, v)
holds. -/
theorem C3_union_position :
    (∀ (sections : List CrossSection) (u v : ℝ),
      sections ≠ [] → 0 ≤ u → u < 1 →
      ∃ cs : CrossSection,
        sections.get? (⌊u * (sections.length : ℝ)⌋).toNat = some cs ∧
        Union.position sections u v =
          some (cs.position (Int.fract (u * (sections.length : ℝ))) v)) ∧
    (∀ (sections : List CrossSection) (v : ℝ),
      sections ≠ [] →
      ∃ cs : CrossSection,
        sections.getLast? = some cs ∧
        Union.position sections 1 v = some (cs.position 1 v)) ∧
    (∀ v : ℝ,
      Union.position [Circle.cs, Circle.cs] 0.25 v =
        some (Circle.cs.position 0.5 v)) := by
  refine ⟨fun sections u v hne hu0 hu1 => ?_, fun sections v hne => ?_, fun v => ?_⟩
  · have hNpos : 0 < sections.length := List.length_pos.mpr hne
    have hNR : (0 : ℝ) < (sections.length : ℝ) := by exact_mod_cast hNpos
    have hx0 : 0 ≤ u * (sections.length : ℝ) := mul_nonneg hu0 hNR.le
    have hxN : u * (sections.length : ℝ) < (sections.length : ℝ) := by nlinarith
    have hfl0 : 0 ≤ ⌊u * (sections.length : ℝ)⌋ := Int.floor_nonneg.mpr hx0
    have hflN : ⌊u * (sections.length : ℝ)⌋ < (sections.length : ℤ) :=
      Int.floor_lt.mpr (by exact_mod_cast hxN)
    have htoNat : (⌊u * (sections.length : ℝ)⌋).toNat < sections.length := by omega
    have hget := List.get?_eq_get htoNat
    refine ⟨sections.get ⟨(⌊u * (sections.length : ℝ)⌋).toNat, htoNat⟩, hget, ?_⟩
    have hpy : pyIndex sections ⌊u * (sections.length : ℝ)⌋ =
        some (sections.get ⟨(⌊u * (sections.length : ℝ)⌋).toNat, htoNat⟩) := by
      unfold pyIndex
      rw [if_pos hfl0, hget]
    unfold Union.position
    rw [hpy]
  · have hNpos : 0 < sections.length := List.length_pos.mpr hne
    have hfloor : ⌊(1 : ℝ) * (sections.length : ℝ)⌋ = (sections.length : ℤ) := by
      rw [one_mul, Int.floor_natCast]
    have hfirst : pyIndex sections ⌊(1 : ℝ) * (sections.length : ℝ)⌋ = none := by
      unfold pyIndex
      rw [hfloor, if_pos (by positivity), List.get?_eq_none.mpr (by simp)]
    have hlastIdx : ((-1 : ℤ) + sections.length).toNat = sections.length - 1 := by omega
    have hlast : pyIndex sections (-1) =
        sections.get? (sections.length - 1) := by
      unfold pyIndex
      rw [if_neg (by norm_num), if_pos (by omega), hlastIdx]
    obtain ⟨cs, hcs⟩ : ∃ cs, sections.getLast? = some cs := by
      cases hL : sections.getLast? with
      | none => exact absurd (List.getLast?_eq_none_iff.mp hL) hne
      | some cs => exact ⟨cs, rfl⟩
    refine ⟨cs, hcs, ?_⟩
    unfold Union.position
    rw [hfirst, hlast, ← List.getLast?_eq_get?, hcs]
  · have hlen : (([Circle.cs, Circle.cs] : List CrossSection).length : ℝ) = 2 := by
      norm_num
    have hx : (0.25 : ℝ) * (([Circle.cs, Circle.cs] : List CrossSection).length : ℝ)
        = 0.5 := by rw [hlen]; norm_num
    have hfloor : ⌊(0.25 : ℝ) * (([Circle.cs, Circle.cs] : List CrossSection).length : ℝ)⌋
        = 0 := by
      rw [hx]
      apply Int.floor_eq_zero_iff.mpr
      constructor <;> norm_num
    have hfract : Int.fract ((0.25 : ℝ) * (([Circle.cs, Circle.cs] : List CrossSection).length : ℝ))
        = 0.5 := by
      unfold Int.fract
      rw [hfloor, hx]
      norm_num
    have hpy : pyIndex [Circle.cs, Circle.cs] ⌊(0.25 : ℝ) * (([Circle.cs, Circle.cs] : List CrossSection).length : ℝ)⌋
        = some Circle.cs := by
      rw [hfloor]
      rfl
    unfold Union.position
    rw [hpy, hfract]

/-- Witness for C3 with a one-element Union at u = 0. -/
theorem C3_witness :
    ∃ cs : CrossSection,
      ([Circle.cs] : List CrossSection).get?
        (⌊(0 : ℝ) * ((([Circle.cs] : List CrossSection).length : ℕ) : ℝ)⌋).toNat = some cs ∧
      Union.position [Circle.cs] 0 0 =
        some (cs.position (Int.fract ((0 : ℝ) * ((([Circle.cs] : List CrossSection).length : ℕ) : ℝ))) 0) :=
  C3_union_position.1 [Circle.cs] 0 0 (by simp) le_rfl (by norm_num)

/-- Claim C6: the Transformed path normal is the base normal mapped by the
inverse transpose of the wrapped XForm Jacobian at the base position and
re-normalized; when that Jacobian is singular the identity matrix stands in
for the inverse, so the normal is simply re-normalized unchanged. -/
theorem C6_transformed_normal (base : ExtrusionPath) (X : XForm) (v : ℝ) :
    ((X.jacobian (base.position v)).det ≠ 0 →
      (X.jacobian (base.position v)).mul (X.jacobian (base.position v)).inv = Mat3.id ∧
      (TransformedPath.path base X).normal v =
        Vec3.normalize
          (((X.jacobian (base.position v)).inv.transpose).mulVec (base.normal v))) ∧
    ((X.jacobian (base.position v)).det = 0 →
      (TransformedPath.path base X).normal v = Vec3.normalize (base.normal v)) := by
  constructor
  · intro h
    refine ⟨Mat3.mul_inv_eq_id h, ?_⟩
    show TransformedPath.normal base X v = _
    unfold TransformedPath.normal
    rw [Mat3.invertOr_of_det_ne_zero h]
  · intro h
    show TransformedPath.normal base X v = _
    unfold TransformedPath.normal
    rw [Mat3.invertOr_of_det_eq_zero h, Mat3.transpose_id, Mat3.id_mulVec]

/-- Witness for C6: a line scaled by an invertible Scale transform. -/
theorem C6_witness :
    ((XForm.scale 2 2 2).jacobian
        ((LinePath.path ⟨0, 0, 0⟩ ⟨1, 0, 0⟩).position 0)).mul
      ((XForm.scale 2 2 2).jacobian
        ((LinePath.path ⟨0, 0, 0⟩ ⟨1, 0, 0⟩).position 0)).inv = Mat3.id ∧
    (TransformedPath.path (LinePath.path ⟨0, 0, 0⟩ ⟨1, 0, 0⟩) (XForm.scale 2 2 2)).normal 0 =
      Vec3.normalize
        ((((XForm.scale 2 2 2).jacobian
            ((LinePath.path ⟨0, 0, 0⟩ ⟨1, 0, 0⟩).position 0)).inv.transpose).mulVec
          ((LinePath.path ⟨0, 0, 0⟩ ⟨1, 0, 0⟩).normal 0)) :=
  (C6_transformed_normal (LinePath.path ⟨0, 0, 0⟩ ⟨1, 0, 0⟩) (XForm.scale 2 2 2) 0).1
    (by show Mat3.det ⟨2, 0, 0, 0, 2, 0, 0, 0, 2⟩ ≠ 0; unfold Mat3.det; norm_num)

/-- The Jacobian product prescribed by claim C1 for a conjugation
C = B * A * B^(-1): each factor is evaluated at the appropriate point along
the composition chain of `Conjugated.transform` (B_inv's Jacobian at the
input point, A's at B_inv's output, B's at A's output). -/
def conjugatedChainJacobian (A B B_inv : XForm) (point : Vec3) : Mat3 :=
  (B.jacobian (A.transform (B_inv.transform point))).mul
    ((A.jacobian (B_inv.transform point)).mul (B_inv.jacobian point))

theorem arg_one_zero : atan2 0 1 = 0 := by
  unfold atan2
  have h : (⟨1, 0⟩ : ℂ) = 1 := by
    apply Complex.ext <;> simp
  rw [h, Complex.arg_one]

/-- Claim C1 fails on the code: for A = Translate((1,0,0)) conjugated by
B = CylindricalToCartesian at the point (1,0,0), `Conjugated.jacobian`
evaluates all three factors at the input point and returns the identity,
while the chain-rule product of the claim is diag(1, 2, 1) (which is the
true derivative of the composed transform there). -/
theorem C1_conjugated_jacobian_bug :
    Conjugated.init (XForm.translate ⟨1, 0, 0⟩) XForm.cylindricalToCartesian =
      some (XForm.conjugated (XForm.translate ⟨1, 0, 0⟩)
        XForm.cylindricalToCartesian XForm.cartesianToCylindrical) ∧
    (XForm.conjugated (XForm.translate ⟨1, 0, 0⟩)
        XForm.cylindricalToCartesian XForm.cartesianToCylindrical).jacobian ⟨1, 0, 0⟩ =
      Mat3.id ∧
    conjugatedChainJacobian (XForm.translate ⟨1, 0, 0⟩)
        XForm.cylindricalToCartesian XForm.cartesianToCylindrical ⟨1, 0, 0⟩ =
      ⟨1, 0, 0, 0, 2, 0, 0, 0, 1⟩ ∧
    (XForm.conjugated (XForm.translate ⟨1, 0, 0⟩)
        XForm.cylindricalToCartesian XForm.cartesianToCylindrical).jacobian ⟨1, 0, 0⟩ ≠
      conjugatedChainJacobian (XForm.translate ⟨1, 0, 0⟩)
        XForm.cylindricalToCartesian XForm.cartesianToCylindrical ⟨1, 0, 0⟩ := by
  have hBjac : XForm.cylindricalToCartesian.jacobian ⟨1, 0, 0⟩ = Mat3.id := by
    show (⟨Real.cos 0, -(1 : ℝ) * Real.sin 0, 0,
           Real.sin 0, (1 : ℝ) * Real.cos 0, 0, 0, 0, 1⟩ : Mat3) = _
    unfold Mat3.id
    norm_num
  have hBinvJac : XForm.cartesianToCylindrical.jacobian ⟨1, 0, 0⟩ = Mat3.id := by
    show (⟨(1 : ℝ) / Real.sqrt ((0 : ℝ) ^ 2 + (1 : ℝ) ^ 2),
           (0 : ℝ) / Real.sqrt ((0 : ℝ) ^ 2 + (1 : ℝ) ^ 2), 0,
           -(0 : ℝ) / ((1 : ℝ) * 1 + (0 : ℝ) * 0),
           (1 : ℝ) / ((1 : ℝ) * 1 + (0 : ℝ) * 0), 0, 0, 0, 1⟩ : Mat3) = _
    unfold Mat3.id
    norm_num [Real.sqrt_one]
  have hAjac : ∀ q : Vec3, (XForm.translate ⟨1, 0, 0⟩).jacobian q = Mat3.id :=
    fun q => rfl
  have hcode : (XForm.conjugated (XForm.translate ⟨1, 0, 0⟩)
      XForm.cylindricalToCartesian XForm.cartesianToCylindrical).jacobian ⟨1, 0, 0⟩ =
      Mat3.id := by
    show (XForm.cylindricalToCartesian.jacobian ⟨1, 0, 0⟩).mul
        (((XForm.translate ⟨1, 0, 0⟩).jacobian ⟨1, 0, 0⟩).mul
          (XForm.cartesianToCylindrical.jacobian ⟨1, 0, 0⟩)) = Mat3.id
    rw [hBjac, hBinvJac, hAjac]
    unfold Mat3.mul Mat3.id
    norm_num
  have hBinvT : XForm.cartesianToCylindrical.transform ⟨1, 0, 0⟩ = ⟨1, 0, 0⟩ := by
    show (⟨Real.sqrt ((0 : ℝ) ^ 2 + (1 : ℝ) ^ 2), atan2 0 1, 0⟩ : Vec3) = _
    rw [arg_one_zero]
    norm_num [Real.sqrt_one]
  have hAT : (XForm.translate ⟨1, 0, 0⟩).transform ⟨1, 0, 0⟩ = ⟨2, 0, 0⟩ := by
    show ((⟨1, 0, 0⟩ : Vec3) + ⟨1, 0, 0⟩) = _
    norm_num
  have hBjac2 : XForm.cylindricalToCartesian.jacobian ⟨2, 0, 0⟩ =
      ⟨1, 0, 0, 0, 2, 0, 0, 0, 1⟩ := by
    show (⟨Real.cos 0, -(2 : ℝ) * Real.sin 0, 0,
           Real.sin 0, (2 : ℝ) * Real.cos 0, 0, 0, 0, 1⟩ : Mat3) = _
    norm_num
  have hchain : conjugatedChainJacobian (XForm.translate ⟨1, 0, 0⟩)
      XForm.cylindricalToCartesian XForm.cartesianToCylindrical ⟨1, 0, 0⟩ =
      ⟨1, 0, 0, 0, 2, 0, 0, 0, 1⟩ := by
    unfold conjugatedChainJacobian
    rw [hBinvT, hAT, hBjac2, hAjac, hBinvJac]
    unfold Mat3.mul Mat3.id
    norm_num
  refine ⟨rfl, hcode, hchain, ?_⟩
  rw [hcode, hchain]
  intro h
  have := congrArg Mat3.m11 h
  unfold Mat3.id at this
  norm_num at this

theorem trig_vec_ne_zero {c φ : ℝ} (hc : c ≠ 0) (dz : ℝ) :
    (⟨-Real.sin φ * c, Real.cos φ * c, dz⟩ : Vec3) ≠ ⟨0, 0, 0⟩ := by
  intro h
  have hx := congrArg Vec3.x h
  have hy := congrArg Vec3.y h
  simp only at hx hy
  have hc2 : c ^ 2 = 0 := by nlinarith [Real.sin_sq_add_cos_sq φ]
  exact hc ((pow_eq_zero_iff two_ne_zero).mp hc2)

theorem trig_vec2_ne_zero {c φ : ℝ} (hc : c ≠ 0) :
    (⟨-c * c * Real.cos φ, -c * c * Real.sin φ, 0⟩ : Vec3) ≠ ⟨0, 0, 0⟩ := by
  intro h
  have hx := congrArg Vec3.x h
  have hy := congrArg Vec3.y h
  simp only at hx hy
  have hc2 : (c * c) ^ 2 = 0 := by nlinarith [Real.sin_sq_add_cos_sq φ]
  have h3 := (pow_eq_zero_iff two_ne_zero).mp hc2
  exact hc (by nlinarith)

theorem len_eq_one_iff_lenSq (a : Vec3) : a.len = 1 ↔ a.lenSq = 1 := by
  unfold Vec3.len
  exact Real.sqrt_eq_one

/-- Claim C8: tangents and normals produced by the Path implementations are
unit vectors away from the documented singular configurations (degenerate
line, constant-angle helix, vectors annihilated by the transform Jacobian),
and the derived binormal is unit length whenever T and N are orthogonal
unit vectors. -/
theorem C8_frenet_unit_vectors :
    (∀ (start end_ : Vec3) (v : ℝ),
      (end_ - start ≠ (⟨0, 0, 0⟩ : Vec3) →
        ((LinePath.path start end_).tangent v).len = 1) ∧
      (Vec3.cross ⟨0, 0, 1⟩ ((LinePath.path start end_).tangent v) ≠ (⟨0, 0, 0⟩ : Vec3) →
        ((LinePath.path start end_).normal v).len = 1)) ∧
    (∀ (heights angles : ℝ × ℝ) (v : ℝ), angles.2 - angles.1 ≠ 0 →
      ((Helix.path heights angles).tangent v).len = 1 ∧
      ((Helix.path heights angles).normal v).len = 1) ∧
    (∀ (base : ExtrusionPath) (X : XForm) (v : ℝ),
      ((X.jacobian (base.position v)).mulVec (base.tangent v) ≠ (⟨0, 0, 0⟩ : Vec3) →
        ((TransformedPath.path base X).tangent v).len = 1) ∧
      ((((X.jacobian (base.position v)).invertOr Mat3.id).transpose).mulVec (base.normal v)
          ≠ (⟨0, 0, 0⟩ : Vec3) →
        ((TransformedPath.path base X).normal v).len = 1)) ∧
    (∀ (P : ExtrusionPath) (v : ℝ),
      (P.tangent v).len = 1 → (P.normal v).len = 1 →
      Vec3.dot (P.tangent v) (P.normal v) = 0 →
      (P.binormal v).len = 1) := by
  refine ⟨fun start end_ v => ⟨fun h => ?_, fun h => ?_⟩,
          fun heights angles v hd => ⟨?_, ?_⟩,
          fun base X v => ⟨fun h => ?_, fun h => ?_⟩,
          fun P v hT hN hTN => ?_⟩
  · exact Vec3.len_normalize h
  · exact Vec3.len_normalize h
  · show (Helix.tangent heights angles v).len = 1
    unfold Helix.tangent
    exact Vec3.len_normalize (trig_vec_ne_zero hd _)
  · show (Helix.normal heights angles v).len = 1
    unfold Helix.normal
    exact Vec3.len_normalize (trig_vec2_ne_zero hd)
  · exact Vec3.len_normalize h
  · exact Vec3.len_normalize h
  · rw [len_eq_one_iff_lenSq] at hT hN ⊢
    unfold ExtrusionPath.binormal
    rw [Vec3.lenSq_cross, hT, hN, hTN]
    norm_num

theorem line_sub_eval : ((⟨1, 0, 0⟩ : Vec3) - ⟨0, 0, 0⟩) = ⟨1, 0, 0⟩ := by
  rw [Vec3.sub_def]; norm_num

theorem len_e1 : (⟨1, 0, 0⟩ : Vec3).len = 1 := by
  unfold Vec3.len Vec3.lenSq; norm_num

theorem len_e2 : (⟨0, 1, 0⟩ : Vec3).len = 1 := by
  unfold Vec3.len Vec3.lenSq; norm_num

theorem normalize_e1 : Vec3.normalize ⟨1, 0, 0⟩ = ⟨1, 0, 0⟩ := by
  unfold Vec3.normalize
  rw [len_e1, if_neg one_ne_zero, Vec3.smul_def]
  norm_num

theorem normalize_e2 : Vec3.normalize ⟨0, 1, 0⟩ = ⟨0, 1, 0⟩ := by
  unfold Vec3.normalize
  rw [len_e2, if_neg one_ne_zero, Vec3.smul_def]
  norm_num

theorem line_tangent_eval :
    (LinePath.path ⟨0, 0, 0⟩ ⟨1, 0, 0⟩).tangent 0 = ⟨1, 0, 0⟩ := by
  show LinePath.tangent ⟨0, 0, 0⟩ ⟨1, 0, 0⟩ 0 = ⟨1, 0, 0⟩
  unfold LinePath.tangent
  rw [line_sub_eval, normalize_e1]

theorem line_normal_eval :
    (LinePath.path ⟨0, 0, 0⟩ ⟨1, 0, 0⟩).normal 0 = ⟨0, 1, 0⟩ := by
  show LinePath.normal _ _ _ = _
  unfold LinePath.normal
  show Vec3.normalize (Vec3.cross ⟨0, 0, 1⟩ (LinePath.tangent ⟨0, 0, 0⟩ ⟨1, 0, 0⟩ 0)) = _
  rw [show LinePath.tangent ⟨0, 0, 0⟩ ⟨1, 0, 0⟩ 0 = ⟨1, 0, 0⟩ from line_tangent_eval]
  rw [show Vec3.cross ⟨0, 0, 1⟩ (⟨1, 0, 0⟩ : Vec3) = ⟨0, 1, 0⟩ by unfold Vec3.cross; norm_num]
  exact normalize_e2

theorem line_position_eval :
    (LinePath.path ⟨0, 0, 0⟩ ⟨1, 0, 0⟩).position 0 = ⟨0, 0, 0⟩ := by
  show LinePath.position _ _ _ = _
  unfold LinePath.position
  rw [Vec3.smul_def, Vec3.smul_def, Vec3.add_def]
  norm_num

theorem scale2_invertOr_eval :
    Mat3.invertOr ⟨2, 0, 0, 0, 2, 0, 0, 0, 2⟩ Mat3.id =
      ⟨1/2, 0, 0, 0, 1/2, 0, 0, 0, 1/2⟩ := by
  unfold Mat3.invertOr Mat3.inv Mat3.det
  rw [if_neg (by norm_num)]
  ext <;> norm_num

/-- Witness for C8 at a unit line, a one-turn helix and a scaled line. -/
theorem C8_witness :
    ((LinePath.path ⟨0, 0, 0⟩ ⟨1, 0, 0⟩).tangent 0).len = 1 ∧
    ((LinePath.path ⟨0, 0, 0⟩ ⟨1, 0, 0⟩).normal 0).len = 1 ∧
    ((Helix.path (0, 1) (0, 2 * Real.pi)).tangent 0).len = 1 ∧
    ((Helix.path (0, 1) (0, 2 * Real.pi)).normal 0).len = 1 ∧
    ((TransformedPath.path (LinePath.path ⟨0, 0, 0⟩ ⟨1, 0, 0⟩)
        (XForm.scale 2 2 2)).tangent 0).len = 1 ∧
    ((TransformedPath.path (LinePath.path ⟨0, 0, 0⟩ ⟨1, 0, 0⟩)
        (XForm.scale 2 2 2)).normal 0).len = 1 ∧
    ((LinePath.path ⟨0, 0, 0⟩ ⟨1, 0, 0⟩).binormal 0).len = 1 := by
  have hd : ((0 : ℝ), 2 * Real.pi).2 - ((0 : ℝ), 2 * Real.pi).1 ≠ 0 := by
    intro h; simp only at h; nlinarith [Real.pi_pos]
  have hjt : ((XForm.scale 2 2 2).jacobian
      ((LinePath.path ⟨0, 0, 0⟩ ⟨1, 0, 0⟩).position 0)).mulVec
      ((LinePath.path ⟨0, 0, 0⟩ ⟨1, 0, 0⟩).tangent 0) ≠ (⟨0, 0, 0⟩ : Vec3) := by
    rw [line_position_eval, line_tangent_eval]
    show Mat3.mulVec ⟨2, 0, 0, 0, 2, 0, 0, 0, 2⟩ ⟨1, 0, 0⟩ ≠ _
    unfold Mat3.mulVec
    intro h
    have := congrArg Vec3.x h
    norm_num at this
  have hjn : ((((XForm.scale 2 2 2).jacobian
      ((LinePath.path ⟨0, 0, 0⟩ ⟨1, 0, 0⟩).position 0)).invertOr Mat3.id).transpose).mulVec
      ((LinePath.path ⟨0, 0, 0⟩ ⟨1, 0, 0⟩).normal 0) ≠ (⟨0, 0, 0⟩ : Vec3) := by
    rw [line_position_eval, line_normal_eval]
    show (((Mat3.invertOr ⟨2, 0, 0, 0, 2, 0, 0, 0, 2⟩ Mat3.id).transpose).mulVec ⟨0, 1, 0⟩) ≠ _
    rw [scale2_invertOr_eval]
    unfold Mat3.transpose Mat3.mulVec
    intro h
    have := congrArg Vec3.y h
    norm_num at this
  refine ⟨(C8_frenet_unit_vectors.1 ⟨0, 0, 0⟩ ⟨1, 0, 0⟩ 0).1 ?_,
          (C8_frenet_unit_vectors.1 ⟨0, 0, 0⟩ ⟨1, 0, 0⟩ 0).2 ?_,
          (C8_frenet_unit_vectors.2.1 (0, 1) (0, 2 * Real.pi) 0 hd).1,
          (C8_frenet_unit_vectors.2.1 (0, 1) (0, 2 * Real.pi) 0 hd).2,
          (C8_frenet_unit_vectors.2.2.1 (LinePath.path ⟨0, 0, 0⟩ ⟨1, 0, 0⟩)
            (XForm.scale 2 2 2) 0).1 hjt,
          (C8_frenet_unit_vectors.2.2.1 (LinePath.path ⟨0, 0, 0⟩ ⟨1, 0, 0⟩)
            (XForm.scale 2 2 2) 0).2 hjn,
          C8_frenet_unit_vectors.2.2.2 (LinePath.path ⟨0, 0, 0⟩ ⟨1, 0, 0⟩) 0 ?_ ?_ ?_⟩
  · rw [line_sub_eval]
    intro h
    exact one_ne_zero (congrArg Vec3.x h)
  · rw [line_tangent_eval]
    rw [show Vec3.cross ⟨0, 0, 1⟩ (⟨1, 0, 0⟩ : Vec3) = ⟨0, 1, 0⟩ by unfold Vec3.cross; norm_num]
    intro h
    exact one_ne_zero (congrArg Vec3.y h)
  · rw [line_tangent_eval]; exact len_e1
  · rw [line_normal_eval]; exact len_e2
  · rw [line_tangent_eval, line_normal_eval]
    unfold Vec3.dot
    norm_num

theorem cyl_of_cart_round (p : Vec3) :
    XForm.cylindricalToCartesian.transform (XForm.cartesianToCylindrical.transform p) = p := by
  show (⟨Real.sqrt (p.y ^ 2 + p.x ^ 2) * Real.cos (atan2 p.y p.x),
         Real.sqrt (p.y ^ 2 + p.x ^ 2) * Real.sin (atan2 p.y p.x), p.z⟩ : Vec3) = p
  unfold atan2
  by_cases hz : (⟨p.x, p.y⟩ : ℂ) = 0
  · have hx : p.x = 0 := by
      have := congrArg Complex.re hz; simpa using this
    have hy : p.y = 0 := by
      have := congrArg Complex.im hz; simpa using this
    ext <;> simp [hx, hy]
  · have habs : Complex.abs ⟨p.x, p.y⟩ = Real.sqrt (p.y ^ 2 + p.x ^ 2) := by
      rw [Complex.abs_apply, Complex.normSq_mk]
      congr 1; ring
    have habs_ne : Real.sqrt (p.y ^ 2 + p.x ^ 2) ≠ 0 := by
      rw [← habs]; exact Complex.abs.ne_zero hz
    have hcos := Complex.cos_arg hz
    have hsin := Complex.sin_arg (⟨p.x, p.y⟩ : ℂ)
    rw [habs] at hcos hsin
    ext
    · show Real.sqrt (p.y ^ 2 + p.x ^ 2) * Real.cos (Complex.arg ⟨p.x, p.y⟩) = p.x
      rw [hcos]
      show Real.sqrt (p.y ^ 2 + p.x ^ 2) * (p.x / Real.sqrt (p.y ^ 2 + p.x ^ 2)) = p.x
      rw [mul_comm, div_mul_cancel₀ _ habs_ne]
    · show Real.sqrt (p.y ^ 2 + p.x ^ 2) * Real.sin (Complex.arg ⟨p.x, p.y⟩) = p.y
      rw [hsin]
      show Real.sqrt (p.y ^ 2 + p.x ^ 2) * (p.y / Real.sqrt (p.y ^ 2 + p.x ^ 2)) = p.y
      rw [mul_comm, div_mul_cancel₀ _ habs_ne]
    · rfl

theorem cart_of_cyl_round (s φ z : ℝ) (hs : 0 < s)
    (hφ : φ ∈ Set.Ioc (-Real.pi) Real.pi) :
    XForm.cartesianToCylindrical.transform
      (XForm.cylindricalToCartesian.transform ⟨s, φ, z⟩) = ⟨s, φ, z⟩ := by
  show (⟨Real.sqrt ((s * Real.sin φ) ^ 2 + (s * Real.cos φ) ^ 2),
         atan2 (s * Real.sin φ) (s * Real.cos φ), z⟩ : Vec3) = ⟨s, φ, z⟩
  have hsq : (s * Real.sin φ) ^ 2 + (s * Real.cos φ) ^ 2 = s ^ 2 := by
    nlinarith [Real.sin_sq_add_cos_sq φ]
  have h1 : Real.sqrt ((s * Real.sin φ) ^ 2 + (s * Real.cos φ) ^ 2) = s := by
    rw [hsq]; exact Real.sqrt_sq hs.le
  have hmk : (⟨s * Real.cos φ, s * Real.sin φ⟩ : ℂ) =
      (s : ℂ) * ⟨Real.cos φ, Real.sin φ⟩ := by
    apply Complex.ext <;> simp [Complex.mul_re, Complex.mul_im]
  have h2 : atan2 (s * Real.sin φ) (s * Real.cos φ) = φ := by
    unfold atan2
    rw [hmk, Complex.arg_real_mul _ hs, Complex.mk_eq_add_mul_I,
      Complex.ofReal_cos, Complex.ofReal_sin, Complex.arg_cos_add_sin_mul_I hφ]
  rw [h1, h2]

/-- Claim C5: every XForm that provides an inverse (Scale with nonzero
factors, Translate, RotateZ, and the two cylindrical conversions on their
valid domains) satisfies both round trips
transform(inverse.transform(p)) = p and inverse.transform(transform(p)) = p
(exactly, since the embedding works over the reals). For the coordinate
conversions the cylindrical-side round trip is restricted to valid
cylindrical points: radius > 0 and angle in (-pi, pi]. -/
theorem C5_inverse_round_trip :
    (∀ sx sy sz : ℝ, sx ≠ 0 → sy ≠ 0 → sz ≠ 0 → ∀ p : Vec3,
      ∃ Xi : XForm, (XForm.scale sx sy sz).inverse = some Xi ∧
        (XForm.scale sx sy sz).transform (Xi.transform p) = p ∧
        Xi.transform ((XForm.scale sx sy sz).transform p) = p) ∧
    (∀ offset p : Vec3,
      ∃ Xi : XForm, (XForm.translate offset).inverse = some Xi ∧
        (XForm.translate offset).transform (Xi.transform p) = p ∧
        Xi.transform ((XForm.translate offset).transform p) = p) ∧
    (∀ (θ : ℝ) (p : Vec3),
      ∃ Xi : XForm, (XForm.rotateZ θ).inverse = some Xi ∧
        (XForm.rotateZ θ).transform (Xi.transform p) = p ∧
        Xi.transform ((XForm.rotateZ θ).transform p) = p) ∧
    (∀ p : Vec3,
      ∃ Xi : XForm, XForm.cartesianToCylindrical.inverse = some Xi ∧
        Xi.transform (XForm.cartesianToCylindrical.transform p) = p) ∧
    (∀ s φ z : ℝ, 0 < s → φ ∈ Set.Ioc (-Real.pi) Real.pi →
      ∃ Xi : XForm, XForm.cartesianToCylindrical.inverse = some Xi ∧
        XForm.cartesianToCylindrical.transform (Xi.transform ⟨s, φ, z⟩) = ⟨s, φ, z⟩) ∧
    (∀ p : Vec3,
      ∃ Xi : XForm, XForm.cylindricalToCartesian.inverse = some Xi ∧
        XForm.cylindricalToCartesian.transform (Xi.transform p) = p) ∧
    (∀ s φ z : ℝ, 0 < s → φ ∈ Set.Ioc (-Real.pi) Real.pi →
      ∃ Xi : XForm, XForm.cylindricalToCartesian.inverse = some Xi ∧
        Xi.transform (XForm.cylindricalToCartesian.transform ⟨s, φ, z⟩) = ⟨s, φ, z⟩) := by
  refine ⟨fun sx sy sz hx hy hz p => ⟨_, rfl, ?_, ?_⟩,
          fun offset p => ⟨_, rfl, ?_, ?_⟩,
          fun θ p => ⟨_, rfl, ?_, ?_⟩,
          fun p => ⟨_, rfl, cyl_of_cart_round p⟩,
          fun s φ z hs hφ => ⟨_, rfl, cart_of_cyl_round s φ z hs hφ⟩,
          fun p => ⟨_, rfl, cyl_of_cart_round p⟩,
          fun s φ z hs hφ => ⟨_, rfl, cart_of_cyl_round s φ z hs hφ⟩⟩
  · show (⟨p.x * (1 / sx) * sx, p.y * (1 / sy) * sy, p.z * (1 / sz) * sz⟩ : Vec3) = p
    ext <;> (simp only; field_simp)
  · show (⟨p.x * sx * (1 / sx), p.y * sy * (1 / sy), p.z * sz * (1 / sz)⟩ : Vec3) = p
    ext <;> (simp only; field_simp)
  · show ((p + -offset) + offset) = p
    ext <;> (simp only [Vec3.add_def, Vec3.neg_def]; ring)
  · show ((p + offset) + -offset) = p
    ext <;> (simp only [Vec3.add_def, Vec3.neg_def]; ring)
  · show (⟨(p.x * Real.cos (-θ) - p.y * Real.sin (-θ)) * Real.cos θ
            - (p.x * Real.sin (-θ) + p.y * Real.cos (-θ)) * Real.sin θ,
          (p.x * Real.cos (-θ) - p.y * Real.sin (-θ)) * Real.sin θ
            + (p.x * Real.sin (-θ) + p.y * Real.cos (-θ)) * Real.cos θ,
          p.z⟩ : Vec3) = p
    ext
    · simp only [Real.cos_neg, Real.sin_neg]
      linear_combination p.x * Real.sin_sq_add_cos_sq θ
    · simp only [Real.cos_neg, Real.sin_neg]
      linear_combination p.y * Real.sin_sq_add_cos_sq θ
    · rfl
  · show (⟨(p.x * Real.cos θ - p.y * Real.sin θ) * Real.cos (-θ)
            - (p.x * Real.sin θ + p.y * Real.cos θ) * Real.sin (-θ),
          (p.x * Real.cos θ - p.y * Real.sin θ) * Real.sin (-θ)
            + (p.x * Real.sin θ + p.y * Real.cos θ) * Real.cos (-θ),
          p.z⟩ : Vec3) = p
    ext
    · simp only [Real.cos_neg, Real.sin_neg]
      linear_combination p.x * Real.sin_sq_add_cos_sq θ
    · simp only [Real.cos_neg, Real.sin_neg]
      linear_combination p.y * Real.sin_sq_add_cos_sq θ
    · rfl

/-- Witness for C5 at concrete transforms and points. -/
theorem C5_witness :
    (∃ Xi : XForm, (XForm.scale 2 3 4).inverse = some Xi ∧
      (XForm.scale 2 3 4).transform (Xi.transform ⟨1, 2, 3⟩) = ⟨1, 2, 3⟩ ∧
      Xi.transform ((XForm.scale 2 3 4).transform ⟨1, 2, 3⟩) = ⟨1, 2, 3⟩) ∧
    (∃ Xi : XForm, (XForm.translate ⟨1, 2, 3⟩).inverse = some Xi ∧
      (XForm.translate ⟨1, 2, 3⟩).transform (Xi.transform ⟨4, 5, 6⟩) = ⟨4, 5, 6⟩ ∧
      Xi.transform ((XForm.translate ⟨1, 2, 3⟩).transform ⟨4, 5, 6⟩) = ⟨4, 5, 6⟩) ∧
    (∃ Xi : XForm, (XForm.rotateZ 1).inverse = some Xi ∧
      (XForm.rotateZ 1).transform (Xi.transform ⟨1, 2, 3⟩) = ⟨1, 2, 3⟩ ∧
      Xi.transform ((XForm.rotateZ 1).transform ⟨1, 2, 3⟩) = ⟨1, 2, 3⟩) ∧
    (∃ Xi : XForm, XForm.cartesianToCylindrical.inverse = some Xi ∧
      Xi.transform (XForm.cartesianToCylindrical.transform ⟨1, 2, 3⟩) = ⟨1, 2, 3⟩) ∧
    (∃ Xi : XForm, XForm.cartesianToCylindrical.inverse = some Xi ∧
      XForm.cartesianToCylindrical.transform (Xi.transform ⟨1, 0, 0⟩) = ⟨1, 0, 0⟩) ∧
    (∃ Xi : XForm, XForm.cylindricalToCartesian.inverse = some Xi ∧
      XForm.cylindricalToCartesian.transform (Xi.transform ⟨1, 2, 3⟩) = ⟨1, 2, 3⟩) ∧
    (∃ Xi : XForm, XForm.cylindricalToCartesian.inverse = some Xi ∧
      Xi.transform (XForm.cylindricalToCartesian.transform ⟨1, 0, 0⟩) = ⟨1, 0, 0⟩) :=
  ⟨C5_inverse_round_trip.1 2 3 4 (by norm_num) (by norm_num) (by norm_num) ⟨1, 2, 3⟩,
   C5_inverse_round_trip.2.1 ⟨1, 2, 3⟩ ⟨4, 5, 6⟩,
   C5_inverse_round_trip.2.2.1 1 ⟨1, 2, 3⟩,
   C5_inverse_round_trip.2.2.2.1 ⟨1, 2, 3⟩,
   C5_inverse_round_trip.2.2.2.2.1 1 0 0 one_pos
     (Set.mem_Ioc.mpr ⟨by linarith [Real.pi_pos], Real.pi_pos.le⟩),
   C5_inverse_round_trip.2.2.2.2.2.1 ⟨1, 2, 3⟩,
   C5_inverse_round_trip.2.2.2.2.2.2 1 0 0 one_pos
     (Set.mem_Ioc.mpr ⟨by linarith [Real.pi_pos], Real.pi_pos.le⟩)⟩
